import Mathlib

/-!
# Verification of the juris-ai-helper frontend pipeline consumer and proxy routes

A shallow embedding, in Lean 4, of the TypeScript frontend of the
juris-ai-helper repository:

* the SSE stream consumer of `handleSubmit` in
  `frontend/src/app/page.tsx` (event handling, progress mapping,
  line buffering of the SSE byte stream);
* the Next.js proxy routes (`/api/process`, `/api/process-stream`,
  `/api/preview`, `/api/preview-subjects`);
* the `FileUpload` component's drag-and-drop extension filter;
* the `canSubmit` guard of the main page.

JavaScript strings are modelled as `String` where only equality and
concatenation matter and as `List Char` where character-level operations
(split, trim, lower-casing) are involved.  JavaScript numbers appearing in
progress arithmetic are modelled as `ℚ` (the values involved, `0.75` etc.,
are exact binary fractions, so rational arithmetic is faithful).
-/

set_option autoImplicit false

namespace JurisAI

/-- JS truthy-or on an optional string: `o || d` — the default is used both
when the value is absent (`undefined`/`null`) and when it is the empty
string, which is falsy in JavaScript. -/
def jsOr (o : Option String) (d : String) : String :=
  match o with
  | some s => if s = "" then d else s
  | none => d

/-- JS truthy-or on an optional character-list string. -/
def jsOrL (o : Option (List Char)) (d : List Char) : List Char :=
  match o with
  | some s => if s = [] then d else s
  | none => d

/-! ## Data model of the stream consumer (`page.tsx`) -/

/-- `ProcessingStatus` in `page.tsx`:
`'idle' | 'uploading' | 'processing' | 'success' | 'error'`. -/
inductive ProcessingStatus where
  | idle
  | uploading
  | processing
  | success
  | error
deriving DecidableEq, Repr

/-- `ChapterAnalysis` in `page.tsx`. -/
structure ChapterAnalysis where
  chapter_title : String
  chapter_pages : String
  matched : Bool
  matched_subject : Option String
  comment_added : Option String
  explanation : String
deriving DecidableEq, Repr

/-- `ProcessingResult` in `page.tsx`.  `filename` is kept at character-list
granularity because building it involves suffix surgery on the PDF name. -/
structure ProcessingResult where
  pdfBase64 : String
  filename : List Char
  analyses : List ChapterAnalysis
  totalChapters : Nat
  matchedChapters : Nat
deriving DecidableEq, Repr

/-- Payload of a `complete` SSE event, as read by the consumer:
`pdf_base64`, optional `pdf_filename`, optional `analyses`,
optional `total_chapters` / `matched_chapters`. -/
structure CompletePayload where
  pdf_base64 : String
  pdf_filename : Option (List Char)
  analyses : Option (List ChapterAnalysis)
  total_chapters : Option Nat
  matched_chapters : Option Nat
deriving DecidableEq, Repr

/-- The events the consumer's `switch (data.type)` distinguishes.  `other`
stands for any parsed JSON object whose `type` is none of the six known
tags: the `switch` has no `default` case, so such an event is a no-op. -/
inductive SSEEvent where
  | start (total_chapters : Nat)
  | progress (chapter_title : String) (progress_percent : ℚ)
  | chapter_done
  | annotating
  | complete (payload : CompletePayload)
  | error (message : String)
  | other
deriving DecidableEq, Repr

/-- The React state touched by the stream consumer, plus `pdfName` (the
name of the uploaded PDF file, fixed for the whole run) and `timerCleared`
(whether `clearTimeout(timeoutId)` has been called). -/
structure ConsumerState where
  pdfName : List Char
  status : ProcessingStatus
  progress : ℚ
  errorMessage : String
  result : Option ProcessingResult
  totalChapters : Nat
  processedChapters : Nat
  currentChapter : String
  timerCleared : Bool
deriving DecidableEq, Repr

/-- `pdfFile.name.replace(/\.pdf$/i, '')`: drop a trailing `.pdf`,
case-insensitively, when present. -/
def stripPdfSuffix (l : List Char) : List Char :=
  if (l.drop (l.length - 4)).map Char.toLower = ['.', 'p', 'd', 'f'] then
    l.take (l.length - 4)
  else l

/-- The UI's mapping of an emitted `progress_percent` to displayed
progress during analysis: `10 + (data.progress_percent * 0.75)`
(line 250 of `page.tsx`; `0.75` is exactly `3/4`). -/
def mapProgress (p : ℚ) : ℚ := 10 + p * (3 / 4 : ℚ)

/-- The full sequence of values `setProgress` receives over a successful
run: 5 (upload), 10 (`start`), one mapped value per `progress` event,
90 (`annotating`), 100 (`complete`). -/
def displayedSeq (ps : List ℚ) : List ℚ :=
  5 :: 10 :: (ps.map mapProgress ++ [90, 100])

/-- One step of the consumer's `switch` on a parsed event.  The `error`
case models `throw new Error(data.message)` (preceded by
`clearTimeout(timeoutId)`): the exception carries the message and the
state at the throw point out of the read loop. -/
def handleEvent (s : ConsumerState) : SSEEvent → Except (String × ConsumerState) ConsumerState
  | .start n => .ok { s with totalChapters := n, progress := 10 }
  | .progress title p =>
      .ok { s with currentChapter := title, progress := mapProgress p }
  | .chapter_done => .ok { s with processedChapters := s.processedChapters + 1 }
  | .annotating => .ok { s with currentChapter := "", progress := 90 }
  | .complete pl =>
      let originalName := stripPdfSuffix s.pdfName
      let filename := jsOrL pl.pdf_filename (originalName ++ ("_annote.pdf").toList)
      .ok { s with
        result := some {
          pdfBase64 := pl.pdf_base64
          filename := filename
          analyses := pl.analyses.getD []
          totalChapters := pl.total_chapters.getD 0
          matchedChapters := pl.matched_chapters.getD 0 }
        progress := 100
        status := .success
        timerCleared := true }
  | .error m => .error (m, { s with timerCleared := true })
  | .other => .ok s

/-- The read loop over an already-parsed event sequence: events are handled
in order until the list ends or a handler throws. -/
def processEvents (s : ConsumerState) : List SSEEvent → Except (String × ConsumerState) ConsumerState
  | [] => .ok s
  | e :: es =>
      match handleEvent s e with
      | .ok s' => processEvents s' es
      | .error err => .error err

/-- The whole `try`/`catch` around the read loop, restricted to the stream
phase: on normal stream end `clearTimeout` runs (line 293); on a thrown
(non-abort) error the `catch` sets status `error`, stores the message and
clears the current chapter (lines 294–306). -/
def runStream (s : ConsumerState) (es : List SSEEvent) : ConsumerState :=
  match processEvents s es with
  | .ok s' => { s' with timerCleared := true }
  | .error (m, sErr) =>
      { sErr with status := .error, errorMessage := m, currentChapter := "" }

/-- The consumer state right before the read loop starts: `handleSubmit`
has set status `uploading`, progress 5, reset the per-run fields, then set
status `processing` (line 204). -/
def initialState (pdfName : List Char) : ConsumerState :=
  { pdfName := pdfName
    status := .processing
    progress := 5
    errorMessage := ""
    result := none
    totalChapters := 0
    processedChapters := 0
    currentChapter := ""
    timerCleared := false }

/-- An event is terminal when it is `complete` or `error`. -/
def isTerminal : SSEEvent → Bool
  | .complete _ => true
  | .error _ => true
  | _ => false

/-! ## Proxy routes

Each route body is a pure function from the outcome of the `fetch` to the
backend (plus whatever that response carried) to the HTTP response the
route returns.  The outcome constructors cover the branches of the
TypeScript `try`/`catch`: a successful backend response, a non-OK backend
response, an `AbortError` raised by the timeout controller, and any other
thrown error. -/

/-- `TIMEOUT_MS` in `app/api/process/route.ts`: `5 * 60 * 1000`. -/
def processTimeoutMs : Nat := 5 * 60 * 1000

/-- `TIMEOUT_MS` in the process-stream proxy route: `10 * 60 * 1000`. -/
def processStreamTimeoutMs : Nat := 10 * 60 * 1000

/-- Outcome of the backend call made by `app/api/process/route.ts`.
For `ok`: the response blob, the optional `X-Annotations-Count` and
`Content-Disposition` headers.  For `httpError`: the backend status and
the `detail` field extracted when the backend body parses as JSON and has
one (`none` otherwise — `response.json().catch(() => ({}))`).  `failure`
carries `some msg` when the thrown value is an `Error` with that message,
`none` otherwise. -/
inductive ProcessBackendOutcome where
  | ok (bytes : List Nat) (annotHeader : Option String) (contentDisp : Option String)
  | httpError (status : Nat) (detail : Option String)
  | abortError
  | failure (msg : Option String)
deriving DecidableEq, Repr

/-- Response of `app/api/process/route.ts`: either the PDF blob with its
headers, or a JSON error body `{detail}` with a status. -/
inductive ProcessRouteResp where
  | pdfResp (bytes : List Nat) (contentType : String) (contentDisp : String)
      (annotHeader : String)
  | jsonError (status : Nat) (detail : String)
deriving DecidableEq, Repr

/-- The `POST` handler of `app/api/process/route.ts`. -/
def processRoute : ProcessBackendOutcome → ProcessRouteResp
  | .ok bytes annotHeader contentDisp =>
      .pdfResp bytes "application/pdf" (jsOr contentDisp "attachment")
        (jsOr annotHeader "0")
  | .httpError status detail =>
      .jsonError status (jsOr detail ("Erreur " ++ toString status))
  | .abortError =>
      .jsonError 504 "Le traitement a depasse le delai maximum de 5 minutes"
  | .failure msg => .jsonError 500 (msg.getD "Erreur interne")

/-- Outcome of the backend call made by the process-stream proxy route.
For `ok`: the SSE body stream (`none` models a `null` `response.body`). -/
inductive StreamBackendOutcome where
  | ok (stream : Option (List String))
  | httpError (status : Nat) (detail : Option String)
  | abortError
  | failure (msg : Option String)
deriving DecidableEq, Repr

/-- Response of the process-stream proxy route: a pass-through stream with
SSE headers, or a JSON error body. -/
inductive StreamRouteResp where
  | streamResp (stream : List String) (contentType : String)
  | jsonError (status : Nat) (detail : String)
deriving DecidableEq, Repr

/-- The `POST` handler of the process-stream proxy route
(`src/unnamed/part_004`, second document). -/
def processStreamRoute : StreamBackendOutcome → StreamRouteResp
  | .ok (some stream) => .streamResp stream "text/event-stream"
  | .ok none => .jsonError 500 "Pas de stream disponible"
  | .httpError status detail =>
      .jsonError status (jsOr detail ("Erreur " ++ toString status))
  | .abortError =>
      .jsonError 504 "Le traitement a depasse le delai maximum de 10 minutes"
  | .failure msg => .jsonError 500 (msg.getD "Erreur interne")

/-- Outcome of a backend call made by the two preview proxy routes.
`ok` carries the backend's JSON body, passed through verbatim (modelled
abstractly as a `String`). -/
inductive PreviewBackendOutcome where
  | ok (data : String)
  | httpError (status : Nat) (detail : Option String)
  | failure (msg : Option String)
deriving DecidableEq, Repr

/-- Response of a preview proxy route. -/
inductive PreviewRouteResp where
  | jsonData (data : String)
  | jsonError (status : Nat) (detail : String)
deriving DecidableEq, Repr

/-- The `POST` handler of the preview-subjects proxy route
(`src/unnamed/part_002`). -/
def previewSubjectsRoute : PreviewBackendOutcome → PreviewRouteResp
  | .ok data => .jsonData data
  | .httpError status detail =>
      .jsonError status (jsOr detail ("Erreur " ++ toString status))
  | .failure msg => .jsonError 500 (msg.getD "Erreur interne")

/-- The `POST` handler of the chapter-preview proxy route
(`src/unnamed/part_003`).  Note its fallback strings differ from the
other two routes'. -/
def previewRoute : PreviewBackendOutcome → PreviewRouteResp
  | .ok data => .jsonData data
  | .httpError status detail =>
      .jsonError status (jsOr detail ("Erreur backend: " ++ toString status))
  | .failure _ => .jsonError 500 "Impossible de contacter le service d\x27analyse PDF"

/-- JavaScript `parseInt(s, 10)`: skip leading whitespace, read an
optional sign and then the longest digit prefix; `none` models `NaN`
(no digits found). -/
def parseIntB10 (s : List Char) : Option Int :=
  let t := s.dropWhile Char.isWhitespace
  let signAndRest : Int × List Char :=
    match t with
    | '-' :: r => (-1, r)
    | '+' :: r => (1, r)
    | _ => (1, t)
  let ds := signAndRest.2.takeWhile Char.isDigit
  if ds.isEmpty then none
  else some (signAndRest.1 *
    (ds.foldl (fun a c => a * 10 + ((c.toNat : Int) - 48)) 0))

/-- The annotation count computed by the legacy UI (`src/unnamed/part_005`):
`parseInt(response.headers.get('X-Annotations-Count') || '0', 10)`. -/
def legacyAnnotationsCount (header : Option String) : Option Int :=
  parseIntB10 ((jsOr header "0").toList)

/-! ## UI state: subjects preview and the `canSubmit` guard -/

/-- `SubjectsPreview` in `page.tsx`: `{valid, subjects_count, subjects, error?}`. -/
structure SubjectsPreview where
  valid : Bool
  subjects_count : Nat
  subjects : List String
  error : Option String
deriving DecidableEq, Repr

/-- Outcome of the `/api/preview-subjects` fetch inside
`handleSubjectsFileSelect`: an OK response whose JSON body is stored
as-is; a non-OK response with the `detail` of its JSON body when present;
or a thrown network error. -/
inductive SubjFetchOutcome where
  | ok (data : SubjectsPreview)
  | httpError (detail : Option String)
  | netError
deriving DecidableEq, Repr

/-- The value `handleSubjectsFileSelect` stores in `subjectsPreview` for a
given fetch outcome (file present; lines 141–174 of `page.tsx`). -/
def handleSubjectsResult : SubjFetchOutcome → Option SubjectsPreview
  | .ok data => some data
  | .httpError detail =>
      some { valid := false, subjects_count := 0, subjects := []
             error := some (jsOr detail "Erreur lors de la validation du fichier") }
  | .netError =>
      some { valid := false, subjects_count := 0, subjects := []
             error := some "Erreur lors de la validation du fichier" }

/-- The slice of page state read by `canSubmit` (line 178 of `page.tsx`).
Files are represented by their names. -/
structure UIState where
  pdfFile : Option (List Char)
  csvFile : Option (List Char)
  status : ProcessingStatus
  loadingPreview : Bool
  loadingSubjects : Bool
  chapterPreview : List (String × Nat)
  subjectsPreview : Option SubjectsPreview
deriving DecidableEq, Repr

/-- `canSubmit = pdfFile && csvFile && status === 'idle' && !loadingPreview
&& !loadingSubjects && chapterPreview.length > 0 && subjectsPreview?.valid`. -/
def canSubmit (u : UIState) : Bool :=
  u.pdfFile.isSome && u.csvFile.isSome && (u.status == .idle)
    && !u.loadingPreview && !u.loadingSubjects
    && decide (u.chapterPreview.length > 0)
    && (match u.subjectsPreview with
        | some sp => sp.valid
        | none => false)

/-! ## SSE line buffering

The consumer splits the accumulated text on `'\n'`, processes every
complete line and keeps the trailing partial line in `buffer`
(lines 232–234 of `page.tsx`).  The stream text is modelled as `List Char`
and chunking as a list of chunks. -/

/-- `s.split(c)` of JavaScript on a single-character separator: always a
non-empty list of separator-free segments. -/
def splitOnC (sep : Char) : List Char → List (List Char)
  | [] => [[]]
  | c :: cs =>
      match splitOnC sep cs with
      | [] => [[]]
      | l :: ls => if c = sep then [] :: l :: ls else (c :: l) :: ls

/-- Last element of a list, with a default for the empty list
(`lines.pop()` on the result of a `split`, which is never empty). -/
def lastD {α : Type} (l : List α) (d : α) : α :=
  match l with
  | [] => d
  | [x] => x
  | _ :: x :: xs => lastD (x :: xs) d

/-- Prepend a string to the first segment of a segment list (used to state
how splitting distributes over concatenation). -/
def consHead (x : List Char) : List (List Char) → List (List Char)
  | [] => [x]
  | y :: ys => (x ++ y) :: ys

/-- One chunk arriving: `buffer += chunk; lines = buffer.split('\n');
buffer = lines.pop() || ''` — the complete lines and the new buffer. -/
def feed (buf chunk : List Char) : List (List Char) × List Char :=
  let parts := splitOnC '\n' (buf ++ chunk)
  (parts.dropLast, lastD parts [])

/-- Folding `feed` over a whole chunk sequence, collecting every complete
line in order together with the final (discarded) buffer. -/
def feedChunks : List (List Char) → List Char → List (List Char) × List Char
  | [], buf => ([], buf)
  | c :: cs, buf =>
      let fed := feed buf c
      let rest := feedChunks cs fed.2
      (fed.1 ++ rest.1, rest.2)

/-- Processing of one complete line (lines 236–289 of `page.tsx`): only
lines starting with `"data: "` are considered; the rest of such a line is
parsed, a parse failure (`SyntaxError`, modelled by `parseLine` returning
`none`) is skipped with no state change, and a parsed event goes through
the `switch`. -/
def handleLine (parseLine : List Char → Option SSEEvent) (s : ConsumerState)
    (line : List Char) : Except (String × ConsumerState) ConsumerState :=
  if line.take 6 = ("data: ").toList then
    match parseLine (line.drop 6) with
    | none => .ok s
    | some ev => handleEvent s ev
  else .ok s

/-- Processing a sequence of complete lines, stopping at a thrown error. -/
def consumeLines (parseLine : List Char → Option SSEEvent) (s : ConsumerState) :
    List (List Char) → Except (String × ConsumerState) ConsumerState
  | [] => .ok s
  | l :: ls =>
      match handleLine parseLine s l with
      | .ok s' => consumeLines parseLine s' ls
      | .error err => .error err

/-! ## The `FileUpload` component (`src/unnamed/part_000`) -/

/-- JavaScript `String.prototype.trim`. -/
def trimWs (l : List Char) : List Char :=
  ((l.dropWhile Char.isWhitespace).reverse.dropWhile Char.isWhitespace).reverse

/-- JavaScript `s.replace('.', '')`: remove the first `'.'` only. -/
def removeFirstDot : List Char → List Char
  | [] => []
  | c :: cs => if c = '.' then cs else c :: removeFirstDot cs

/-- Character-wise lower-casing (`toLowerCase`). -/
def lowerL (l : List Char) : List Char := l.map Char.toLower

/-- The accept list of `handleDrop`:
`accept.split(',').map((ext) => ext.trim().replace('.', '').toLowerCase())`. -/
def acceptedExtensions (accept : List Char) : List (List Char) :=
  (splitOnC ',' accept).map fun e => lowerL (removeFirstDot (trimWs e))

/-- Whether `handleDrop` passes a dropped file of the given name to
`onFileSelect`: `extension = name.split('.').pop()?.toLowerCase()`;
invoked iff `extension` is truthy and a member of the accept list. -/
def handleDropAccepts (name accept : List Char) : Bool :=
  let extension := lowerL (lastD (splitOnC '.' name) [])
  !extension.isEmpty && (acceptedExtensions accept).contains extension

/-- Whether `handleFileInput` passes a file chosen via the dialog to
`onFileSelect`: always, no extension check. -/
def handleFileInputAccepts (_name _accept : List Char) : Bool := true

/-- The final extension of a file name in the usual sense: the segment
after the last `'.'` when the name contains one, absent otherwise.
(Definition following the claims' words, for comparison with
`handleDropAccepts`, which derives its notion from `split('.').pop()`.) -/
def standardExtension (name : List Char) : Option (List Char) :=
  if '.' ∈ name then some (name.reverse.takeWhile (fun c => c ≠ '.')).reverse
  else none

/-! ## The backend Progress Orchestrator, modelled from the spec -/

/-- A chapter, as in spec §3. -/
structure Chapter where
  title : String
  page_start : Nat
  page_end : Nat
  body_text : String
deriving DecidableEq, Repr

/-- A per-chapter match result, as in spec §3 (chapter reference omitted). -/
structure MatchOutcome where
  matched : Bool
  matched_subject : Option String
  explanation : String
deriving DecidableEq, Repr

/-- The events of the orchestrator's stream, spec §6. -/
inductive PipeEvent where
  | startEv (total_chapters : Nat)
  | progressEv (chapter_title : String) (progress_percent : ℚ)
  | chapterDoneEv
  | annotatingEv
  | completeEv (total_chapters : Nat) (matched_chapters : Nat)
  | errorEv (message : String)
deriving DecidableEq, Repr

/-- Modelled from the spec: the backend Progress Orchestrator (spec §4.5),
whose implementation is not under `src/` (only the backend README is
present).  Returns the emitted event stream, the number of Matching
Engine invocations, and whether the Annotator was invoked.  Per §4.5, a
zero-chapter extraction transitions directly to `Error` without invoking
the Matching Engine or the Annotator; otherwise one `start`, then per
chapter one `progress` (monotonically increasing percentage) and one
`chapter_done`, then one `annotating`, then the terminal `complete`. -/
def orchestrate (matcher : Chapter → MatchOutcome) (chapters : List Chapter) :
    List PipeEvent × Nat × Bool :=
  match chapters with
  | [] => ([.errorEv "Aucun chapitre detecte"], 0, false)
  | _ :: _ =>
      let n := chapters.length
      let results := chapters.map matcher
      let body := (List.range n).zip chapters |>.foldr
        (fun ic acc =>
          .progressEv ic.2.title ((100 * (ic.1 + 1) : ℚ) / (n : ℚ))
            :: .chapterDoneEv :: acc)
        [.annotatingEv, .completeEv n (results.countP (·.matched))]
      (PipeEvent.startEv n :: body, n, true)

/-! ## Helper lemmas: splitting, buffering -/

theorem splitOnC_ne_nil (sep : Char) (l : List Char) : splitOnC sep l ≠ [] := by
  cases l with
  | nil => simp [splitOnC]
  | cons c cs =>
      simp only [splitOnC]
      split
      · simp
      · split <;> simp

theorem consHead_ne_nil (x : List Char) (L : List (List Char)) : consHead x L ≠ [] := by
  cases L <;> simp [consHead]

theorem lastD_cons_cons {α : Type} (a b : α) (l : List α) (d : α) :
    lastD (a :: b :: l) d = lastD (b :: l) d := rfl

theorem lastD_append_right {α : Type} (A B : List α) (d : α) (h : B ≠ []) :
    lastD (A ++ B) d = lastD B d := by
  induction A with
  | nil => rfl
  | cons a A ih =>
      cases hc : A ++ B with
      | nil => exact absurd (by simp [List.append_eq_nil] at hc; exact hc.2) h
      | cons x xs => rw [List.cons_append, hc, lastD_cons_cons, ← hc, ih]

theorem splitOnC_append (sep : Char) (a b : List Char) :
    splitOnC sep (a ++ b) =
      (splitOnC sep a).dropLast ++
        consHead (lastD (splitOnC sep a) []) (splitOnC sep b) := by
  induction a with
  | nil =>
      cases h : splitOnC sep b with
      | nil => exact absurd h (splitOnC_ne_nil sep b)
      | cons y ys => simp [splitOnC, consHead, lastD, h]
  | cons c a ih =>
      cases hB : splitOnC sep b with
      | nil => exact absurd hB (splitOnC_ne_nil sep b)
      | cons y ys =>
        cases ha : splitOnC sep a with
        | nil => exact absurd ha (splitOnC_ne_nil sep a)
        | cons l ls =>
          rw [hB, ha] at ih
          show splitOnC sep (c :: (a ++ b)) = _
          cases ls with
          | nil =>
              by_cases hc : c = sep <;>
                simp [splitOnC, ih, ha, hB, consHead, hc, lastD]
          | cons l₂ ls₂ =>
              by_cases hc : c = sep <;>
                simp [splitOnC, ih, ha, hB, consHead, hc, List.dropLast_cons₂,
                  lastD_cons_cons, lastD]

theorem splitOnC_single (sep c : Char) :
    splitOnC sep [c] = if c = sep then [[], []] else [[c]] := by
  by_cases h : c = sep <;> simp [splitOnC, h]

/-- The trailing segment after splitting is the longest separator-free
suffix of the input. -/
theorem splitOnC_lastD (sep : Char) (l : List Char) :
    lastD (splitOnC sep l) [] = (l.reverse.takeWhile (fun x => x ≠ sep)).reverse := by
  induction l using List.reverseRecOn with
  | nil => simp [splitOnC, lastD]
  | append_singleton l c ih =>
      rw [splitOnC_append, splitOnC_single]
      by_cases hc : c = sep
      · subst hc
        rw [if_pos rfl, lastD_append_right _ _ _ (consHead_ne_nil _ _)]
        simp [consHead, lastD, List.reverse_append, List.takeWhile_cons]
      · rw [if_neg hc, lastD_append_right _ _ _ (consHead_ne_nil _ _)]
        simp [consHead, lastD, List.reverse_append, List.takeWhile_cons, hc, ih]

theorem sep_not_mem_lastD (sep : Char) (l : List Char) :
    sep ∉ lastD (splitOnC sep l) [] := by
  rw [splitOnC_lastD]
  intro h
  have := List.mem_takeWhile_imp (List.mem_reverse.mp h)
  simp at this

theorem splitOnC_of_not_mem (sep : Char) (l : List Char) (h : sep ∉ l) :
    splitOnC sep l = [l] := by
  induction l with
  | nil => simp [splitOnC]
  | cons c cs ih =>
      have hc : ¬(c = sep) := fun e => h (e ▸ List.mem_cons_self c cs)
      have hcs := ih (fun hm => h (List.mem_cons_of_mem c hm))
      simp [splitOnC, hcs, hc]

/-- The complete lines produced by the buffering loop, and the final
buffer, depend only on the concatenation of the chunks: they are the
segments of the full text split on newline, minus the trailing segment,
which stays in the buffer. -/
theorem feedChunks_eq (cs : List (List Char)) : ∀ buf : List Char, ('\n') ∉ buf →
    feedChunks cs buf =
      ((splitOnC '\n' (buf ++ cs.flatten)).dropLast,
        lastD (splitOnC '\n' (buf ++ cs.flatten)) []) := by
  induction cs with
  | nil =>
      intro buf hbuf
      rw [List.flatten_nil, List.append_nil, splitOnC_of_not_mem _ _ hbuf]
      simp [feedChunks, lastD]
  | cons c cs ih =>
      intro buf hbuf
      have hbuf' : ('\n') ∉ lastD (splitOnC '\n' (buf ++ c)) [] :=
        sep_not_mem_lastD _ _
      have hsplit : splitOnC '\n' (lastD (splitOnC '\n' (buf ++ c)) []) =
          [lastD (splitOnC '\n' (buf ++ c)) []] :=
        splitOnC_of_not_mem _ _ hbuf'
      have key : splitOnC '\n' (buf ++ (c :: cs).flatten) =
          (splitOnC '\n' (buf ++ c)).dropLast ++
            consHead (lastD (splitOnC '\n' (buf ++ c)) []) (splitOnC '\n' cs.flatten) := by
        rw [List.flatten_cons, ← List.append_assoc, splitOnC_append]
      have key2 : splitOnC '\n' (lastD (splitOnC '\n' (buf ++ c)) [] ++ cs.flatten) =
          consHead (lastD (splitOnC '\n' (buf ++ c)) []) (splitOnC '\n' cs.flatten) := by
        rw [splitOnC_append, hsplit]
        simp [lastD]
      show ((feed buf c).1 ++ (feedChunks cs (feed buf c).2).1,
            (feedChunks cs (feed buf c).2).2) = _
      rw [show (feed buf c).2 = lastD (splitOnC '\n' (buf ++ c)) [] from rfl,
        ih _ hbuf', key2, key]
      simp only [Prod.mk.injEq]
      constructor
      · rw [show (feed buf c).1 = (splitOnC '\n' (buf ++ c)).dropLast from rfl,
          List.dropLast_append_of_ne_nil _ (consHead_ne_nil _ _)]
      · rw [lastD_append_right _ _ _ (consHead_ne_nil _ _)]

/-! ## Helper lemmas: the event loop and JS truthy-or -/

theorem jsOr_ne_empty (o : Option String) (d : String) (hd : d ≠ "") :
    jsOr o d ≠ "" := by
  cases o with
  | none => exact hd
  | some s => by_cases hs : s = "" <;> simp [jsOr, hs, hd]

/-- A thrown error short-circuits the event loop: events after an `error`
event are never handled. -/
theorem processEvents_error_stops (s : ConsumerState) (pre post : List SSEEvent) (m : String) :
    processEvents s (pre ++ SSEEvent.error m :: post) =
      processEvents s (pre ++ [SSEEvent.error m]) := by
  induction pre generalizing s with
  | nil => rfl
  | cons e pre ih =>
      simp only [List.cons_append, processEvents]
      cases handleEvent s e with
      | ok s' => exact ih s'
      | error err => rfl

theorem processEvents_append (a b : List SSEEvent) : ∀ s : ConsumerState,
    processEvents s (a ++ b) =
      match processEvents s a with
      | .ok s' => processEvents s' b
      | .error err => Except.error err := by
  induction a with
  | nil => intro s; rfl
  | cons e a ih =>
      intro s
      simp only [List.cons_append, processEvents]
      cases handleEvent s e with
      | ok s' => exact ih s'
      | error err => rfl

/-- Non-terminal events never throw, and they leave `status` and
`pdfName` untouched. -/
theorem processEvents_nonterminal (es : List SSEEvent) :
    ∀ s : ConsumerState, (∀ e ∈ es, isTerminal e = false) →
      ∃ s', processEvents s es = .ok s' ∧ s'.status = s.status ∧
        s'.pdfName = s.pdfName := by
  induction es with
  | nil => exact fun s _ => ⟨s, rfl, rfl, rfl⟩
  | cons e es ih =>
      intro s h
      have he := h e (List.mem_cons_self e es)
      have hes := fun x hx => h x (List.mem_cons_of_mem e hx)
      cases e with
      | start n =>
          obtain ⟨s', h1, h2, h3⟩ := ih { s with totalChapters := n, progress := 10 } hes
          exact ⟨s', h1, h2, h3⟩
      | progress title p =>
          obtain ⟨s', h1, h2, h3⟩ :=
            ih { s with currentChapter := title, progress := mapProgress p } hes
          exact ⟨s', h1, h2, h3⟩
      | chapter_done =>
          obtain ⟨s', h1, h2, h3⟩ :=
            ih { s with processedChapters := s.processedChapters + 1 } hes
          exact ⟨s', h1, h2, h3⟩
      | annotating =>
          obtain ⟨s', h1, h2, h3⟩ :=
            ih { s with currentChapter := "", progress := 90 } hes
          exact ⟨s', h1, h2, h3⟩
      | other =>
          obtain ⟨s', h1, h2, h3⟩ := ih s hes
          exact ⟨s', h1, h2, h3⟩
      | complete pl => simp [isTerminal] at he
      | error m => simp [isTerminal] at he

/-! ## The claims -/

/-- C2: for every `complete` event, the stored `ProcessingResult` is built
exactly from the payload — `pdfBase64` from `pdf_base64`; `filename` from
`pdf_filename` when that is present (truthy), otherwise the uploaded PDF's
name with its `.pdf` suffix replaced by `_annote.pdf`; `analyses` from
`analyses` (empty when absent); `totalChapters`/`matchedChapters` from
`total_chapters`/`matched_chapters` (0 when absent) — and progress is set
to 100, status to `success`, and the deadline timer is cleared. -/
theorem claim2_complete_builds_result (s : ConsumerState) (pl : CompletePayload) :
    handleEvent s (SSEEvent.complete pl) = Except.ok { s with
      result := some {
        pdfBase64 := pl.pdf_base64
        filename := jsOrL pl.pdf_filename
          (stripPdfSuffix s.pdfName ++ ("_annote.pdf").toList)
        analyses := pl.analyses.getD []
        totalChapters := pl.total_chapters.getD 0
        matchedChapters := pl.matched_chapters.getD 0 }
      progress := 100
      status := ProcessingStatus.success
      timerCleared := true } := rfl

/-- C3: the non-streaming process transport uses a 5-minute deadline
(`TIMEOUT_MS = 5*60*1000`); when the backend call is aborted by it the
route answers HTTP 504 with a JSON `detail` naming deadline exhaustion and
returns no PDF body; the streaming variant enforces the same policy with a
10-minute deadline. -/
theorem claim3_deadline_policy :
    processTimeoutMs = 5 * 60 * 1000 ∧
    processRoute ProcessBackendOutcome.abortError =
      ProcessRouteResp.jsonError 504
        "Le traitement a depasse le delai maximum de 5 minutes" ∧
    (∀ bytes ct cd ah, processRoute ProcessBackendOutcome.abortError ≠
      ProcessRouteResp.pdfResp bytes ct cd ah) ∧
    processStreamTimeoutMs = 10 * 60 * 1000 ∧
    processStreamRoute StreamBackendOutcome.abortError =
      StreamRouteResp.jsonError 504
        "Le traitement a depasse le delai maximum de 10 minutes" :=
  ⟨rfl, rfl, fun _ _ _ _ h => ProcessRouteResp.noConfusion h, rfl, rfl⟩

/-- C5: on a successful backend response the process route passes the PDF
bytes through unchanged with `Content-Type: application/pdf` and an
`X-Annotations-Count` header equal to the backend's, or `"0"` when the
backend omits it; the legacy UI parses that header in base 10, yielding 0
when the header is absent. -/
theorem claim5_success_passthrough (bytes : List Nat) (annot cd : Option String) :
    processRoute (ProcessBackendOutcome.ok bytes annot cd) =
      ProcessRouteResp.pdfResp bytes "application/pdf" (jsOr cd "attachment")
        (jsOr annot "0") ∧
    processRoute (ProcessBackendOutcome.ok bytes none cd) =
      ProcessRouteResp.pdfResp bytes "application/pdf" (jsOr cd "attachment") "0" ∧
    legacyAnnotationsCount none = some 0 ∧
    legacyAnnotationsCount annot = parseIntB10 ((jsOr annot "0").toList) :=
  ⟨rfl, rfl, by decide, rfl⟩

/-- C6 counterexample: the chapter-preview proxy route's fallback message
is `"Erreur backend: <status>"`, not `"Erreur <status>"` as the claim
states for all three routes — exhibited at backend status 418 with a body
carrying no `detail`. -/
theorem claim6_counterexample :
    previewRoute (PreviewBackendOutcome.httpError 418 none) =
      PreviewRouteResp.jsonError 418 "Erreur backend: 418" ∧
    "Erreur backend: 418" ≠ "Erreur 418" :=
  ⟨rfl, by decide⟩

/-- C6 amended: for every non-success backend response, each proxy route
returns a JSON body with a non-empty string `detail` — the backend's own
detail when present, otherwise a fallback naming the status (`"Erreur
<status>"` for the process and preview-subjects routes, `"Erreur backend:
<status>"` for the preview route) — while preserving the backend's HTTP
status code. -/
theorem claim6_amended (st : Nat) (d : Option String) :
    processRoute (ProcessBackendOutcome.httpError st d) =
      ProcessRouteResp.jsonError st (jsOr d ("Erreur " ++ toString st)) ∧
    previewSubjectsRoute (PreviewBackendOutcome.httpError st d) =
      PreviewRouteResp.jsonError st (jsOr d ("Erreur " ++ toString st)) ∧
    previewRoute (PreviewBackendOutcome.httpError st d) =
      PreviewRouteResp.jsonError st (jsOr d ("Erreur backend: " ++ toString st)) ∧
    jsOr d ("Erreur " ++ toString st) ≠ "" ∧
    jsOr d ("Erreur backend: " ++ toString st) ≠ "" := by
  refine ⟨rfl, rfl, rfl, jsOr_ne_empty _ _ ?_, jsOr_ne_empty _ _ ?_⟩
  · intro h
    have := congrArg String.length h
    simp [String.length_append] at this
    exact absurd this.1 (by decide)
  · intro h
    have := congrArg String.length h
    simp [String.length_append] at this
    exact absurd this.1 (by decide)

/-- C7 (spec-modelled orchestrator): a zero-chapter extraction makes the
orchestrator emit only a terminal `error`, with zero Matching Engine
invocations and no Annotator run; and at the UI level `canSubmit` is true
only when the chapter preview is non-empty and the subjects preview is
valid, so no processing run can start for a document with zero detected
chapters. -/
theorem claim7_zero_chapters_blocked (matcher : Chapter → MatchOutcome)
    (u : UIState) (hc : canSubmit u = true) :
    orchestrate matcher [] = ([PipeEvent.errorEv "Aucun chapitre detecte"], 0, false) ∧
    u.chapterPreview ≠ [] ∧
    ∃ sp, u.subjectsPreview = some sp ∧ sp.valid = true := by
  have hc' := hc
  simp only [canSubmit, Bool.and_eq_true, decide_eq_true_eq] at hc'
  obtain ⟨⟨_, hlen⟩, hsp⟩ := hc'
  refine ⟨rfl, ?_, ?_⟩
  · exact List.ne_nil_of_length_pos hlen
  · cases hu : u.subjectsPreview with
    | none => rw [hu] at hsp; exact absurd hsp (by simp)
    | some sp => rw [hu] at hsp; exact ⟨sp, rfl, hsp⟩

theorem claim7_witness :
    orchestrate (fun _ => ⟨false, none, "no match"⟩) [] =
      ([PipeEvent.errorEv "Aucun chapitre detecte"], 0, false) ∧
    ({ pdfFile := some ['a'], csvFile := some ['b'],
       status := ProcessingStatus.idle, loadingPreview := false,
       loadingSubjects := false, chapterPreview := [("c", 1)],
       subjectsPreview := some ⟨true, 1, ["s"], none⟩ } : UIState).chapterPreview ≠ [] :=
  have h := claim7_zero_chapters_blocked (fun _ => ⟨false, none, "no match"⟩)
    { pdfFile := some ['a'], csvFile := some ['b'],
      status := ProcessingStatus.idle, loadingPreview := false,
      loadingSubjects := false, chapterPreview := [("c", 1)],
      subjectsPreview := some ⟨true, 1, ["s"], none⟩ } (by decide)
  ⟨h.1, h.2.1⟩

/-- C8: the subjects preview stored by `handleSubjectsFileSelect` for a
failed preview request (non-OK response or thrown network error) is
exactly `{valid: false, subjects_count: 0, subjects: [], error: m}` with
`m` a non-empty message, and with that preview stored `canSubmit` is
false, so no run can start with an invalid subject file. -/
theorem claim8_invalid_subjects_block (o : SubjFetchOutcome)
    (ho : (∃ d, o = SubjFetchOutcome.httpError d) ∨ o = SubjFetchOutcome.netError)
    (u : UIState) (hu : u.subjectsPreview = handleSubjectsResult o) :
    ∃ p m, handleSubjectsResult o = some p ∧ p.valid = false ∧
      p.subjects_count = 0 ∧ p.subjects = [] ∧ p.error = some m ∧ m ≠ "" ∧
      canSubmit u = false := by
  have hmsg : ("Erreur lors de la validation du fichier" : String) ≠ "" := by decide
  cases o with
  | ok data =>
      rcases ho with ⟨d, h⟩ | h <;> exact SubjFetchOutcome.noConfusion h
  | httpError d =>
      refine ⟨_, jsOr d "Erreur lors de la validation du fichier",
        rfl, rfl, rfl, rfl, rfl, jsOr_ne_empty _ _ hmsg, ?_⟩
      simp [canSubmit, hu, handleSubjectsResult]
  | netError =>
      refine ⟨_, "Erreur lors de la validation du fichier",
        rfl, rfl, rfl, rfl, rfl, hmsg, ?_⟩
      simp [canSubmit, hu, handleSubjectsResult]

theorem claim8_witness :
    ∃ p m, handleSubjectsResult SubjFetchOutcome.netError = some p ∧
      p.valid = false ∧ p.subjects_count = 0 ∧ p.subjects = [] ∧
      p.error = some m ∧ m ≠ "" ∧
      canSubmit ({ pdfFile := some ['a'], csvFile := some ['b'],
                   status := ProcessingStatus.idle, loadingPreview := false,
                   loadingSubjects := false, chapterPreview := [("c", 1)],
                   subjectsPreview :=
                     handleSubjectsResult SubjFetchOutcome.netError } : UIState) = false :=
  claim8_invalid_subjects_block SubjFetchOutcome.netError (Or.inr rfl) _ rfl

/-- C10 counterexample: the claim says a dropped file with no extension is
silently ignored, but `split('.').pop()` on a dot-free name returns the
whole name — a file literally named `pdf` (no extension) dropped on the
PDF upload zone (accept list `.pdf`) IS passed to `onFileSelect`. -/
theorem claim10_counterexample :
    handleDropAccepts ['p', 'd', 'f'] ['.', 'p', 'd', 'f'] = true ∧
    standardExtension ['p', 'd', 'f'] = none := by decide

/-- C10 amended: a dropped file is passed to `onFileSelect` iff the
lowercased last `'.'`-separated segment of its name — the substring after
the last dot, or the whole name when the name contains no dot — is
non-empty and belongs to the accept list (entries trimmed, first dot
removed, lowercased); a file chosen via the file-input dialog is passed
without any extension check. -/
theorem claim10_amended (name accept : List Char) :
    (handleDropAccepts name accept = true ↔
      (lowerL ((name.reverse.takeWhile (fun c => c ≠ '.')).reverse) ≠ [] ∧
        lowerL ((name.reverse.takeWhile (fun c => c ≠ '.')).reverse) ∈
          acceptedExtensions accept)) ∧
    handleFileInputAccepts name accept = true := by
  constructor
  · simp [handleDropAccepts, splitOnC_lastD, Bool.and_eq_true, List.isEmpty_iff,
      List.elem_iff]
  · rfl
/-- C4 counterexample: the claim assumes only that emitted
`progress_percent` values are monotonically increasing and at most 100;
without a lower bound the displayed sequence is not monotone — the single
emitted value −100 satisfies the claim's hypotheses, yet the displayed
sequence 5, 10, 10 + 0.75·(−100) = −65, 90, 100 decreases at its third
step. -/
theorem claim4_counterexample :
    List.Chain' (· ≤ ·) [(-100 : ℚ)] ∧ (∀ p ∈ [(-100 : ℚ)], p ≤ 100) ∧
    ¬ (displayedSeq [(-100 : ℚ)]).Chain' (· ≤ ·) := by
  refine ⟨List.chain'_singleton _, by norm_num, ?_⟩
  intro h
  have h2 := (List.chain'_cons.mp ((List.chain'_cons.mp h).2)).1
  norm_num [mapProgress] at h2

/-- C4 amended: the UI progress mapping `p ↦ 10 + 0.75·p` is strictly
increasing and bounded by 85 for `p ≤ 100`; for any monotone sequence of
emitted percentages that moreover lie in `[0, 100]` (completion
percentages are nonnegative), the full displayed sequence
5, 10, 10+0.75·pᵢ, 90, 100 is monotone nondecreasing and never
exceeds 100. -/
theorem claim4_progress_monotone (ps : List ℚ)
    (hmono : ps.Chain' (· ≤ ·))
    (hlb : ∀ p ∈ ps, 0 ≤ p) (hub : ∀ p ∈ ps, p ≤ 100) :
    (∀ p q : ℚ, p < q → mapProgress p < mapProgress q) ∧
    (∀ p : ℚ, p ≤ 100 → mapProgress p ≤ 85) ∧
    (displayedSeq ps).Chain' (· ≤ ·) ∧
    (∀ x ∈ displayedSeq ps, x ≤ 100) := by
  have hmonoMap : ∀ p q : ℚ, p ≤ q → mapProgress p ≤ mapProgress q := by
    intro p q h; unfold mapProgress; nlinarith
  have hstrict : ∀ p q : ℚ, p < q → mapProgress p < mapProgress q := by
    intro p q h; unfold mapProgress; nlinarith
  have hb85 : ∀ p : ℚ, p ≤ 100 → mapProgress p ≤ 85 := by
    intro p h; unfold mapProgress; nlinarith
  have hge10 : ∀ p : ℚ, 0 ≤ p → 10 ≤ mapProgress p := by
    intro p h; unfold mapProgress; nlinarith
  refine ⟨hstrict, hb85, ?_, ?_⟩
  · show List.Chain' (· ≤ ·) (5 :: 10 :: (ps.map mapProgress ++ [90, 100]))
    rw [List.chain'_cons]
    refine ⟨by norm_num, ?_⟩
    rw [show (10 : ℚ) :: (ps.map mapProgress ++ [90, 100]) =
      ((10 : ℚ) :: ps.map mapProgress) ++ [90, 100] from rfl]
    rw [List.chain'_append]
    refine ⟨?_, ?_, ?_⟩
    · rw [List.chain'_cons']
      constructor
      · intro y hy
        cases ps with
        | nil => simp at hy
        | cons p ps' =>
            simp only [List.map_cons, List.head?_cons, Option.mem_def,
              Option.some.injEq] at hy
            exact hy ▸ hge10 p (hlb p (by simp))
      · rw [List.chain'_map]
        exact hmono.imp fun {a b} h => hmonoMap a b h
    · norm_num [List.chain'_cons, List.chain'_singleton]
    · intro x hx y hy
      simp only [List.head?_cons, Option.mem_def, Option.some.injEq] at hy
      subst hy
      have hxmem : x ∈ (10 : ℚ) :: ps.map mapProgress := List.mem_of_mem_getLast? hx
      rcases List.mem_cons.mp hxmem with h10 | hmap
      · rw [h10]; norm_num
      · obtain ⟨p, hp, rfl⟩ := List.mem_map.mp hmap
        have := hb85 p (hub p hp)
        linarith
  · intro x hx
    simp only [displayedSeq, List.mem_cons, List.mem_append, List.mem_map] at hx
    rcases hx with rfl | rfl | ⟨⟨p, hp, rfl⟩ | hx⟩
    · norm_num
    · norm_num
    · have := hb85 p (hub p hp); linarith
    · rcases hx with rfl | hx
      · norm_num
      · rcases hx with rfl | hx
        · norm_num
        · simp at hx

theorem claim4_witness :
    (displayedSeq [(40 : ℚ)]).Chain' (· ≤ ·) ∧
    ∀ x ∈ displayedSeq [(40 : ℚ)], x ≤ 100 :=
  have h := claim4_progress_monotone [(40 : ℚ)] (List.chain'_singleton _)
    (by norm_num) (by norm_num)
  ⟨h.2.2.1, h.2.2.2⟩
/-- C1: (i) after the consumer handles an `error` event it handles no
further events — the handler throws, so everything after the `error` is
ignored; (ii) for a stream of non-terminal events followed by one terminal
event (the contract: one `start`, N `progress`, N `chapter_done`, one
`annotating`, then exactly one terminal event with nothing after it), the
final UI status is `success` iff the terminal event is `complete` and
`error` iff it is `error`; (iii) the consumer keeps reading after
`complete`, so a second `complete` would still be processed and overwrite
the stored result with its own payload. -/
theorem claim1_terminal_discipline
    (s : ConsumerState) (pre post : List SSEEvent) (m : String)
    (pdfName : List Char) (body : List SSEEvent) (t : SSEEvent)
    (plA plB : CompletePayload)
    (hbody : ∀ e ∈ body, isTerminal e = false) (ht : isTerminal t = true) :
    runStream s (pre ++ SSEEvent.error m :: post) =
      runStream s (pre ++ [SSEEvent.error m]) ∧
    ((runStream (initialState pdfName) (body ++ [t])).status =
        ProcessingStatus.success ↔ ∃ pl, t = SSEEvent.complete pl) ∧
    ((runStream (initialState pdfName) (body ++ [t])).status =
        ProcessingStatus.error ↔ ∃ msg, t = SSEEvent.error msg) ∧
    (runStream (initialState pdfName)
        [SSEEvent.complete plA, SSEEvent.complete plB]).result =
      (runStream (initialState pdfName) [SSEEvent.complete plB]).result := by
  obtain ⟨s', h1, hst, hpdf⟩ := processEvents_nonterminal body (initialState pdfName) hbody
  have happ := processEvents_append body [t] (initialState pdfName)
  rw [h1] at happ
  refine ⟨?_, ?_, ?_, ?_⟩
  · unfold runStream
    rw [processEvents_error_stops]
  · cases t with
    | complete pl =>
        have hsucc : (runStream (initialState pdfName) (body ++ [SSEEvent.complete pl])).status =
            ProcessingStatus.success := by
          unfold runStream
          rw [happ]
          rfl
        exact ⟨fun _ => ⟨pl, rfl⟩, fun _ => hsucc⟩
    | error m' =>
        have herr : (runStream (initialState pdfName) (body ++ [SSEEvent.error m'])).status =
            ProcessingStatus.error := by
          unfold runStream
          rw [happ]
          rfl
        constructor
        · intro hcontra
          rw [herr] at hcontra
          exact absurd hcontra (by simp)
        · rintro ⟨pl, hpl⟩
          exact SSEEvent.noConfusion hpl
    | start n => simp [isTerminal] at ht
    | progress a b => simp [isTerminal] at ht
    | chapter_done => simp [isTerminal] at ht
    | annotating => simp [isTerminal] at ht
    | other => simp [isTerminal] at ht
  · cases t with
    | complete pl =>
        have hsucc : (runStream (initialState pdfName) (body ++ [SSEEvent.complete pl])).status =
            ProcessingStatus.success := by
          unfold runStream
          rw [happ]
          rfl
        constructor
        · intro hcontra
          rw [hsucc] at hcontra
          exact absurd hcontra (by simp)
        · rintro ⟨msg, hmsg⟩
          exact SSEEvent.noConfusion hmsg
    | error m' =>
        have herr : (runStream (initialState pdfName) (body ++ [SSEEvent.error m'])).status =
            ProcessingStatus.error := by
          unfold runStream
          rw [happ]
          rfl
        exact ⟨fun _ => ⟨m', rfl⟩, fun _ => herr⟩
    | start n => simp [isTerminal] at ht
    | progress a b => simp [isTerminal] at ht
    | chapter_done => simp [isTerminal] at ht
    | annotating => simp [isTerminal] at ht
    | other => simp [isTerminal] at ht
  · rfl

theorem claim1_witness :
    ((runStream (initialState ['a', '.', 'p', 'd', 'f'])
        ([SSEEvent.start 1, SSEEvent.progress "c" 50, SSEEvent.chapter_done,
          SSEEvent.annotating] ++ [SSEEvent.complete ⟨"b64", none, none, none, none⟩])).status =
      ProcessingStatus.success) ∧
    (runStream (initialState ['a', '.', 'p', 'd', 'f'])
        ([SSEEvent.start 1] ++ SSEEvent.error "boom" :: [SSEEvent.chapter_done]) =
      runStream (initialState ['a', '.', 'p', 'd', 'f'])
        ([SSEEvent.start 1] ++ [SSEEvent.error "boom"])) :=
  have h := claim1_terminal_discipline (initialState ['a', '.', 'p', 'd', 'f'])
    [SSEEvent.start 1] [SSEEvent.chapter_done] "boom" ['a', '.', 'p', 'd', 'f']
    [SSEEvent.start 1, SSEEvent.progress "c" 50, SSEEvent.chapter_done,
      SSEEvent.annotating]
    (SSEEvent.complete ⟨"b64", none, none, none, none⟩)
    ⟨"x", none, none, none, none⟩ ⟨"y", none, none, none, none⟩
    (by decide) (by decide)
  ⟨h.2.1.mpr ⟨_, rfl⟩, h.1⟩
/-- C9: the SSE consumer is invariant under re-chunking of the stream:
two chunkings of the same character stream yield exactly the same complete
lines (in order) and the same final buffer, so the same events are handled
in the same order and the consumer reaches the same state, whatever the
line parser does (unparseable lines are skipped with no state change). -/
theorem claim9_chunking_invariance (cs1 cs2 : List (List Char))
    (h : cs1.flatten = cs2.flatten) :
    feedChunks cs1 [] = feedChunks cs2 [] ∧
    ∀ (parseLine : List Char → Option SSEEvent) (s : ConsumerState),
      consumeLines parseLine s (feedChunks cs1 []).1 =
        consumeLines parseLine s (feedChunks cs2 []).1 := by
  have h1 := feedChunks_eq cs1 [] (by simp)
  have h2 := feedChunks_eq cs2 [] (by simp)
  rw [h1, h2, h]
  exact ⟨rfl, fun _ _ => rfl⟩

theorem claim9_witness :
    feedChunks [['d', 'a'], ['t', 'a', ':', ' ', 'x', '\x0a', 'r']] [] =
      feedChunks [['d'], ['a', 't', 'a', ':', ' '], ['x', '\x0a', 'r']] [] :=
  (claim9_chunking_invariance
    [['d', 'a'], ['t', 'a', ':', ' ', 'x', '\x0a', 'r']]
    [['d'], ['a', 't', 'a', ':', ' '], ['x', '\x0a', 'r']] rfl).1

end JurisAI
